import Mathlib

/-!
# Verification of the layered-configuration loader and the skill scaffolder

Shallow embedding of `pyconfig-helper/reference/settings.py` and
`skill-scaffolder/scripts/generate_skill.py`.

Python `dict`s are modelled as association lists with unique keys
(insertion order preserved: updating an existing key keeps its position,
a new key is appended, exactly as in CPython).  YAML / JSON style values
are modelled by the inductive type `Value`.
-/

set_option maxRecDepth 4000

/-- An untyped configuration value: string, integer, boolean, null, sequence
or nested mapping (`RawMapping` in the spec). -/
inductive Value where
  | str : String → Value
  | int : Int → Value
  | bool : Bool → Value
  | null : Value
  | list : List Value → Value
  | dict : List (String × Value) → Value

/-- A nested mapping: Python `Dict[str, Any]`. -/
abbrev Dict := List (String × Value)

/-- First-match lookup in an association list: Python `d[k]` / `k in d`. -/
def lookupS {α : Type} : List (String × α) → String → Option α
  | [], _ => none
  | (k, v) :: rest, key => if k = key then some v else lookupS rest key

/-- Python `d[k] = v` on a dict: an existing key keeps its position and gets
the new value, a fresh key is appended at the end. -/
def setKeyV {α : Type} : List (String × α) → String → α → List (String × α)
  | [], key, v => [(key, v)]
  | (k, w) :: rest, key, v =>
      if k = key then (k, v) :: rest else (k, w) :: setKeyV rest key v

/-- `deep_merge` from `settings.py` (lines 76–93): start from a copy of
`base` and fold the items of `override` into it; when the current value in
the result and the override value are both mappings, recurse, otherwise the
override value replaces wholesale. -/
def deep_merge : Dict → Dict → Dict
  | result, [] => result
  | result, (key, value) :: rest =>
      match lookupS result key, value with
      | some (Value.dict d1), Value.dict d2 =>
          deep_merge (setKeyV result key (Value.dict (deep_merge d1 d2))) rest
      | _, _ => deep_merge (setKeyV result key value) rest
termination_by _ ov => sizeOf ov
decreasing_by
  all_goals simp_wf
  all_goals omega

/-- The branch condition of `deep_merge`: the key is present in the result
with a mapping value, and the override value is a mapping too. -/
def bothDicts : Option Value → Value → Bool
  | some (Value.dict _), Value.dict _ => true
  | _, _ => false

/-- The value stored by one iteration of the `deep_merge` loop. -/
def mergeVal : Option Value → Value → Value
  | some (Value.dict d1), Value.dict d2 => Value.dict (deep_merge d1 d2)
  | _, v => v

/-- No keys are ever tracked by Python dicts twice: well-formedness of an
association list (each key hides no later binding). -/
def nodupKeysB {α : Type} : List (String × α) → Bool
  | [] => true
  | (k, _) :: rest => (lookupS rest k).isNone && nodupKeysB rest

theorem lookupS_setKeyV_self {α : Type} (l : List (String × α)) (k : String) (v : α) :
    lookupS (setKeyV l k v) k = some v := by
  induction l with
  | nil => simp [setKeyV, lookupS]
  | cons hd tl ih =>
      obtain ⟨k', w⟩ := hd
      by_cases h : k' = k
      · simp [setKeyV, lookupS, h]
      · simp [setKeyV, lookupS, h, ih]

theorem lookupS_setKeyV_ne {α : Type} (l : List (String × α)) (k key : String) (v : α)
    (h : k ≠ key) : lookupS (setKeyV l k v) key = lookupS l key := by
  induction l with
  | nil => simp [setKeyV, lookupS, h]
  | cons hd tl ih =>
      obtain ⟨k', w⟩ := hd
      by_cases h2 : k' = k
      · subst h2
        simp [setKeyV, lookupS, h]
      · simp [setKeyV, lookupS, h2, ih]

/-- One step of the `deep_merge` loop, phrased with `mergeVal`. -/
theorem deep_merge_cons (result : Dict) (key : String) (value : Value) (rest : Dict) :
    deep_merge result ((key, value) :: rest)
      = deep_merge (setKeyV result key (mergeVal (lookupS result key) value)) rest := by
  rcases h : lookupS result key with _ | v
  · rcases value <;> simp [deep_merge, h, mergeVal]
  · rcases v <;> rcases value <;> simp [deep_merge, h, mergeVal]

/-- A key that does not occur in `override` keeps its `base` binding. -/
theorem deep_merge_lookup_none (ov : Dict) (base : Dict) (key : String)
    (h : lookupS ov key = none) :
    lookupS (deep_merge base ov) key = lookupS base key := by
  induction ov generalizing base with
  | nil => simp [deep_merge]
  | cons hd tl ih =>
      obtain ⟨k, v⟩ := hd
      rw [lookupS] at h
      by_cases hk : k = key
      · simp [hk] at h
      · rw [deep_merge_cons, ih _ (by simpa [hk] using h), lookupS_setKeyV_ne _ _ _ _ hk]

/-- A key of `override` ends up bound to `mergeVal (base value) (override value)`:
the recursive merge when both values are mappings, the override value otherwise. -/
theorem deep_merge_lookup_some (ov : Dict) (base : Dict) (key : String) (v : Value)
    (hnd : nodupKeysB ov = true) (h : lookupS ov key = some v) :
    lookupS (deep_merge base ov) key = some (mergeVal (lookupS base key) v) := by
  induction ov generalizing base with
  | nil => simp [lookupS] at h
  | cons hd tl ih =>
      obtain ⟨k, w⟩ := hd
      rw [nodupKeysB, Bool.and_eq_true] at hnd
      rw [lookupS] at h
      by_cases hk : k = key
      · subst hk
        simp at h
        subst h
        have htl : lookupS tl k = none := Option.isNone_iff_eq_none.mp hnd.1
        rw [deep_merge_cons, deep_merge_lookup_none _ _ _ htl, lookupS_setKeyV_self]
      · rw [if_neg hk] at h
        rw [deep_merge_cons, ih _ hnd.2 h, lookupS_setKeyV_ne _ _ _ _ hk]

/-- When the branch condition fails, `mergeVal` is the override value. -/
theorem mergeVal_of_not_bothDicts (b : Option Value) (v : Value)
    (h : bothDicts b v = false) : mergeVal b v = v := by
  rcases b with _ | u
  · rcases v <;> simp [mergeVal]
  · rcases u <;> rcases v <;> simp_all [mergeVal, bothDicts]

/-- C1: for well-formed inputs, every key of `override` is bound in
`merge(base, override)` to the recursive merge of the two values when both
are mappings and to the override value otherwise (replacement is total);
keys absent from `override` keep their `base` binding; and the concrete
example of merging a:(x:1, y:2) with a:(y:3) evaluates to a:(x:1, y:3). -/
theorem deep_merge_spec (base ov : Dict) (hnd : nodupKeysB ov = true) :
    (∀ key, lookupS ov key = none →
        lookupS (deep_merge base ov) key = lookupS base key)
    ∧ (∀ key d1 d2, lookupS base key = some (Value.dict d1) →
        lookupS ov key = some (Value.dict d2) →
        lookupS (deep_merge base ov) key = some (Value.dict (deep_merge d1 d2)))
    ∧ (∀ key v, lookupS ov key = some v → bothDicts (lookupS base key) v = false →
        lookupS (deep_merge base ov) key = some v)
    ∧ deep_merge [("a", Value.dict [("x", Value.int 1), ("y", Value.int 2)])]
        [("a", Value.dict [("y", Value.int 3)])]
      = [("a", Value.dict [("x", Value.int 1), ("y", Value.int 3)])] := by
  refine ⟨fun key h => deep_merge_lookup_none ov base key h, ?_, ?_, ?_⟩
  · intro key d1 d2 hb ho
    rw [deep_merge_lookup_some ov base key _ hnd ho, hb]
    rfl
  · intro key v ho hnb
    rw [deep_merge_lookup_some ov base key v hnd ho, mergeVal_of_not_bothDicts _ _ hnb]
  · simp [deep_merge, lookupS, setKeyV]

/-- Witness for C1 at a concrete input: the nodup hypothesis holds for the
example override and the example equation follows. -/
theorem deep_merge_spec_witness :
    deep_merge [("a", Value.dict [("x", Value.int 1), ("y", Value.int 2)])]
        [("a", Value.dict [("y", Value.int 3)])]
      = [("a", Value.dict [("x", Value.int 1), ("y", Value.int 3)])] :=
  (deep_merge_spec [("a", Value.dict [("x", Value.int 1), ("y", Value.int 2)])]
    [("a", Value.dict [("y", Value.int 3)])] (by rfl)).2.2.2

/-- Replacing a key by the value it already has is a no-op. -/
theorem setKeyV_lookup_eq {α : Type} (l : List (String × α)) (k : String) (v : α)
    (h : lookupS l k = some v) : setKeyV l k v = l := by
  induction l with
  | nil => simp [lookupS] at h
  | cons hd tl ih =>
      obtain ⟨k', w⟩ := hd
      by_cases hk : k' = k
      · subst hk
        simp [lookupS] at h
        simp [setKeyV, h]
      · rw [lookupS, if_neg hk] at h
        simp [setKeyV, hk, ih h]

mutual

/-- Well-formedness of a value: every nested mapping has pairwise-distinct
keys, as Python dicts always do. -/
def wfVal : Value → Bool
  | Value.dict d => wfDict d
  | _ => true

/-- Well-formedness of a mapping: keys are pairwise distinct and all values
are well formed. -/
def wfDict : Dict → Bool
  | [] => true
  | (k, v) :: rest => (lookupS rest k).isNone && wfVal v && wfDict rest

end

/-- Merging a well-formed sub-mapping of `base` into `base` changes nothing. -/
theorem deep_merge_sub : ∀ (ov base : Dict), wfDict ov = true →
    (∀ k v, lookupS ov k = some v → lookupS base k = some v) →
    deep_merge base ov = base
  | [], base, _, _ => by simp [deep_merge]
  | (k, v) :: rest, base, hwf, hsub => by
      rw [wfDict] at hwf
      simp only [Bool.and_eq_true] at hwf
      obtain ⟨⟨hnotin, hwfv⟩, hwfrest⟩ := hwf
      have hbk : lookupS base k = some v := hsub k v (by simp [lookupS])
      have hstep : mergeVal (some v) v = v := by
        rcases hv : v with s | n | b | _ | l | d
        · rfl
        · rfl
        · rfl
        · rfl
        · rfl
        · have hwd : wfDict d = true := by
            rw [hv] at hwfv
            exact hwfv
          have : deep_merge d d = d := deep_merge_sub d d hwd (fun _ _ h => h)
          simp [mergeVal, this]
      have hsub' : ∀ k' v', lookupS rest k' = some v' → lookupS base k' = some v' := by
        intro k' v' h'
        by_cases hk : k' = k
        · subst hk
          rw [h'] at hnotin
          simp at hnotin
        · exact hsub k' v' (by rw [lookupS, if_neg (fun he => hk he.symm)]; exact h')
      rw [deep_merge_cons, hbk, hstep, setKeyV_lookup_eq base k v hbk]
      exact deep_merge_sub rest base hwfrest hsub'
termination_by ov _ _ _ => sizeOf ov

/-- C7: deep-merge is idempotent: for every well-formed nested mapping `X`,
`merge(X, X) = X`. -/
theorem deep_merge_idem (X : Dict) (hwf : wfDict X = true) : deep_merge X X = X :=
  deep_merge_sub X X hwf (fun _ _ h => h)

/-- Witness for C7 at a concrete nested mapping. -/
theorem deep_merge_idem_witness :
    deep_merge
        [("a", Value.dict [("x", Value.int 1), ("y", Value.str "s")]), ("b", Value.bool true)]
        [("a", Value.dict [("x", Value.int 1), ("y", Value.str "s")]), ("b", Value.bool true)]
      = [("a", Value.dict [("x", Value.int 1), ("y", Value.str "s")]), ("b", Value.bool true)] :=
  deep_merge_idem
    [("a", Value.dict [("x", Value.int 1), ("y", Value.str "s")]), ("b", Value.bool true)]
    (by simp [wfDict, wfVal, lookupS])

/-- The process environment: a finite map from variable names to values. -/
abbrev EnvL := List (String × String)

/-- The content of a YAML file as seen through `yaml.safe_load`: either a
parse result (`Value.null` for an empty document) or a syntax error. -/
inductive YFile where
  | parsed : Value → YFile
  | malformed : YFile

/-- The file system visible to the YAML reader: path to file content. -/
abbrev YFS := List (String × YFile)

/-- Python truthiness of a YAML value (`if config` in `load_yaml_file`). -/
def truthy : Value → Bool
  | Value.str s => !s.isEmpty
  | Value.int n => n != 0
  | Value.bool b => b
  | Value.null => false
  | Value.list l => !l.isEmpty
  | Value.dict d => !d.isEmpty

/-- `load_yaml_file` from `settings.py` (lines 54–73): an empty or `None`
path or a missing file gives an empty mapping; a malformed file raises
(`Except.error`); otherwise the parse result is returned when truthy and an
empty mapping when falsy.  Note the source returns the parse result even
when it is not a mapping. -/
def load_yaml_file (yfs : YFS) : Option String → Except Unit Value
  | none => Except.ok (Value.dict [])
  | some p =>
      if p = "" then Except.ok (Value.dict [])
      else
        match lookupS yfs p with
        | none => Except.ok (Value.dict [])
        | some YFile.malformed => Except.error ()
        | some (YFile.parsed v) => Except.ok (if truthy v then v else Value.dict [])

/-- A mapping-valued `Value`, or `none`. -/
def asDict : Value → Option Dict
  | Value.dict d => some d
  | _ => none

/-- `load_merged_config` from `settings.py` (lines 96–113): read the two
paths from `CONFIG_BASE_PATH` / `CONFIG_ENV_PATH` (defaulting to an empty
string), load both files and deep-merge, the env layer overriding the base
layer.  The model covers mapping-rooted parse results; a parse failure or a
non-mapping root is signalled as `none` (the source would raise or
propagate the non-mapping value). -/
def load_merged_config (yfs : YFS) (env : EnvL) : Option Dict :=
  let base_path := (lookupS env "CONFIG_BASE_PATH").getD ""
  let env_path := (lookupS env "CONFIG_ENV_PATH").getD ""
  match load_yaml_file yfs (some base_path), load_yaml_file yfs (some env_path) with
  | Except.ok (Value.dict b), Except.ok (Value.dict o) => some (deep_merge b o)
  | _, _ => none

/-- `DatabaseConfig` schema section with its field defaults (lines 120–125). -/
structure DatabaseConfig where
  host : String := "localhost"
  port : Int := 3306
  user : String := "root"
  password : String := ""

/-- `ApiConfig` schema section with its field defaults (lines 128–131). -/
structure ApiConfig where
  url : String := "http://localhost:8080/api"
  timeout : Int := 5000

/-- `AppConfig` schema section with its field defaults (lines 134–139). -/
structure AppConfig where
  max_workers : Int := 20
  batch_size : Int := 1000
  max_retry : Int := 3
  log_level : String := "INFO"

/-- `LoggingConfig` schema section with its field defaults (lines 142–145). -/
structure LoggingConfig where
  level : String := "INFO"
  show_progress : Bool := true

/-- The typed `Settings` object (lines 152–168). -/
structure Settings where
  config_base_path : String
  config_env_path : String
  database : DatabaseConfig
  api : ApiConfig
  app : AppConfig
  logging : LoggingConfig

/-- Modelled from the spec: pydantic string-field coercion (spec section 4.5
step 4 — "a field whose supplied value cannot be coerced to its declared
type fails the entire construction"; pydantic itself is not repository
code). -/
def coerceStr : Value → Option String
  | Value.str s => some s
  | _ => none

/-- Modelled from the spec: pydantic integer-field coercion (integers and
numeric strings are accepted, anything else fails the construction). -/
def coerceInt : Value → Option Int
  | Value.int n => some n
  | Value.str s => s.toInt?
  | _ => none

/-- Modelled from the spec: pydantic boolean-field coercion. -/
def coerceBool : Value → Option Bool
  | Value.bool b => some b
  | Value.str "true" => some true
  | Value.str "false" => some false
  | Value.int 0 => some false
  | Value.int 1 => some true
  | _ => none

/-- A string field of a section: the supplied value coerced, or the default
when the key is missing. -/
def fieldStr (d : Dict) (k : String) (dflt : String) : Option String :=
  match lookupS d k with
  | none => some dflt
  | some v => coerceStr v

/-- An integer field of a section. -/
def fieldInt (d : Dict) (k : String) (dflt : Int) : Option Int :=
  match lookupS d k with
  | none => some dflt
  | some v => coerceInt v

/-- A boolean field of a section. -/
def fieldBool (d : Dict) (k : String) (dflt : Bool) : Option Bool :=
  match lookupS d k with
  | none => some dflt
  | some v => coerceBool v

/-- Validation of the `database` section: absent section gives the
defaults, a mapping is validated field by field, anything else fails. -/
def validateDatabase : Option Value → Option DatabaseConfig
  | none => some {}
  | some (Value.dict d) =>
      match fieldStr d "host" "localhost", fieldInt d "port" 3306,
            fieldStr d "user" "root", fieldStr d "password" "" with
      | some h, some po, some u, some pw => some ⟨h, po, u, pw⟩
      | _, _, _, _ => none
  | some _ => none

/-- Validation of the `api` section. -/
def validateApi : Option Value → Option ApiConfig
  | none => some {}
  | some (Value.dict d) =>
      match fieldStr d "url" "http://localhost:8080/api", fieldInt d "timeout" 5000 with
      | some u, some t => some ⟨u, t⟩
      | _, _ => none
  | some _ => none

/-- Validation of the `app` section. -/
def validateApp : Option Value → Option AppConfig
  | none => some {}
  | some (Value.dict d) =>
      match fieldInt d "max_workers" 20, fieldInt d "batch_size" 1000,
            fieldInt d "max_retry" 3, fieldStr d "log_level" "INFO" with
      | some mw, some bs, some mr, some ll => some ⟨mw, bs, mr, ll⟩
      | _, _, _, _ => none
  | some _ => none

/-- Validation of the `logging` section. -/
def validateLogging : Option Value → Option LoggingConfig
  | none => some {}
  | some (Value.dict d) =>
      match fieldStr d "level" "INFO", fieldBool d "show_progress" true with
      | some l, some sp => some ⟨l, sp⟩
      | _, _ => none
  | some _ => none

/-- Modelled from the spec: the pydantic `BaseSettings` source priority for
a plain string field — caller-supplied data first, then the environment
variable matching the field name (the process spelling `CONFIG_BASE_PATH` /
`CONFIG_ENV_PATH`; pydantic itself is not repository code), then the
default empty string. -/
def fieldOrEnvStr (data : Dict) (env : EnvL) (fieldKey envKey : String) : Option String :=
  match lookupS data fieldKey with
  | some v => coerceStr v
  | none => some ((lookupS env envKey).getD "")

/-- Modelled from the spec: `super().__init__(**data)` — pydantic validates
each section from the caller-supplied data, applying per-field defaults and
failing the whole construction on any coercion failure (spec section 4.5
step 4).  No environment variable matches a nested section field: the
source configures no `env_nested_delimiter`, so names such as
`APP__MAX_WORKERS` bind nothing. -/
def settingsValidate (env : EnvL) (data : Dict) : Option Settings :=
  match fieldOrEnvStr data env "config_base_path" "CONFIG_BASE_PATH",
        fieldOrEnvStr data env "config_env_path" "CONFIG_ENV_PATH",
        validateDatabase (lookupS data "database"),
        validateApi (lookupS data "api"),
        validateApp (lookupS data "app"),
        validateLogging (lookupS data "logging") with
  | some cbp, some cep, some db, some apiC, some appC, some lg =>
      some ⟨cbp, cep, db, apiC, appC, lg⟩
  | _, _, _, _, _, _ => none

/-- One section-adoption step of `Settings.__init__` (lines 181–188): the
YAML sub-mapping is taken only when the section is in the merged YAML and
the caller did not supply it. -/
def adoptSection (yaml_config : Dict) (data : Dict) (k : String) : Dict :=
  match lookupS yaml_config k, lookupS data k with
  | some v, none => setKeyV data k v
  | _, _ => data

/-- The four section adoptions of `Settings.__init__`, in source order. -/
def adoptSections (yaml_config data : Dict) : Dict :=
  ["database", "api", "app", "logging"].foldl (adoptSection yaml_config) data

/-- `Settings._apply_env_overrides` (lines 195–202): when `DATABASE_PASSWORD`
is set to a truthy (non-empty) value, ensure a `database` entry exists and,
if it is a mapping, force its `password` field to the variable's value. -/
def applyEnvOverrides (env : EnvL) (data : Dict) : Dict :=
  match lookupS env "DATABASE_PASSWORD" with
  | none => data
  | some p =>
      if p = "" then data
      else
        let data1 := if (lookupS data "database").isNone
                     then setKeyV data "database" (Value.dict []) else data
        match lookupS data1 "database" with
        | some (Value.dict d) =>
            setKeyV data1 "database" (Value.dict (setKeyV d "password" (Value.str p)))
        | _ => data1

/-- `Settings.__init__` (lines 175–193): resolve the merged YAML config,
adopt sections the caller did not supply, apply the sensitive-field
environment override, then validate. -/
def settingsInit (env : EnvL) (yfs : YFS) (data0 : Dict) : Option Settings :=
  match load_merged_config yfs env with
  | none => none
  | some yaml_config =>
      let data1 := if yaml_config.isEmpty then data0 else adoptSections yaml_config data0
      let data2 := applyEnvOverrides env data1
      settingsValidate env data2

/-- The two YAML layers of the precedence example: base sets
`app.max_workers` to 10, the env layer sets it to 20. -/
def yfsBoth : YFS :=
  [("base.yaml", YFile.parsed (Value.dict [("app", Value.dict [("max_workers", Value.int 10)])])),
   ("env.yaml", YFile.parsed (Value.dict [("app", Value.dict [("max_workers", Value.int 20)])]))]

/-- C2, counterexample: with base YAML 10, env YAML 20 and the environment
variable `APP__MAX_WORKERS=30`, the resolved `app.max_workers` is 20, not
the claimed 30 — the source configures no nested-environment delimiter and
the YAML-adopted section is passed as caller data, which outranks the
environment. -/
theorem settings_env_var_counterexample :
    Option.map (fun s => s.app.max_workers)
      (settingsInit [("CONFIG_BASE_PATH", "base.yaml"), ("CONFIG_ENV_PATH", "env.yaml"),
        ("APP__MAX_WORKERS", "30")] yfsBoth [])
      = some 20
    ∧ some (20 : Int) ≠ some (30 : Int) := by
  constructor
  · simp [settingsInit, load_merged_config, load_yaml_file, truthy, lookupS, yfsBoth,
      adoptSections, adoptSection, applyEnvOverrides, settingsValidate, fieldOrEnvStr,
      validateDatabase, validateApi, validateApp, validateLogging, fieldStr, fieldInt,
      fieldBool, coerceStr, coerceInt, coerceBool, deep_merge_cons, deep_merge, mergeVal,
      setKeyV]
  · decide

/-- C2, amended: the environment variable `APP__MAX_WORKERS` has no effect
on the resolution.  With both YAML layers present the resolved
`app.max_workers` is 20 (the env layer) whether or not the variable is set;
with only the base layer it is 10; with no YAML layers it is the schema
default 20 — precedence is env YAML over base YAML over the hard-coded
default. -/
theorem settings_precedence :
    Option.map (fun s => s.app.max_workers)
      (settingsInit [("CONFIG_BASE_PATH", "base.yaml"), ("CONFIG_ENV_PATH", "env.yaml"),
        ("APP__MAX_WORKERS", "30")] yfsBoth [])
      = some 20
    ∧ Option.map (fun s => s.app.max_workers)
        (settingsInit [("CONFIG_BASE_PATH", "base.yaml"), ("CONFIG_ENV_PATH", "env.yaml")]
          yfsBoth [])
      = some 20
    ∧ Option.map (fun s => s.app.max_workers)
        (settingsInit [("CONFIG_BASE_PATH", "base.yaml")] yfsBoth [])
      = some 10
    ∧ Option.map (fun s => s.app.max_workers) (settingsInit [] [] [])
      = some 20 := by
  refine ⟨?_, ?_, ?_, ?_⟩ <;>
    simp [settingsInit, load_merged_config, load_yaml_file, truthy, lookupS, yfsBoth,
      adoptSections, adoptSection, applyEnvOverrides, settingsValidate, fieldOrEnvStr,
      validateDatabase, validateApi, validateApp, validateLogging, fieldStr, fieldInt,
      fieldBool, coerceStr, coerceInt, coerceBool, deep_merge_cons, deep_merge, mergeVal,
      setKeyV]

/-- A successful validation got its `database` section from the data. -/
theorem settingsValidate_database (env : EnvL) (data : Dict) (s : Settings)
    (h : settingsValidate env data = some s) :
    validateDatabase (lookupS data "database") = some s.database := by
  rw [settingsValidate] at h
  split at h
  · rename_i cbp cep db apiC appC lg h1 h2 h3 h4 h5 h6
    cases h
    exact h3
  · exact absurd h (by simp)

/-- After `_apply_env_overrides` with a non-empty password in the
environment, the `database` entry of the data is either a mapping whose
`password` field is that value, or a non-mapping value left untouched. -/
theorem applyEnvOverrides_database (env : EnvL) (data : Dict) (p : String)
    (hp : lookupS env "DATABASE_PASSWORD" = some p) (hne : p ≠ "") :
    (∃ d, lookupS (applyEnvOverrides env data) "database" = some (Value.dict d)
        ∧ lookupS d "password" = some (Value.str p))
    ∨ (∃ v, lookupS (applyEnvOverrides env data) "database" = some v
        ∧ asDict v = none) := by
  rw [applyEnvOverrides, hp]
  simp only [if_neg hne]
  rcases h0 : lookupS data "database" with _ | v
  · simp only [h0, Option.isNone_none, if_pos]
    rw [lookupS_setKeyV_self]
    left
    exact ⟨setKeyV [] "password" (Value.str p),
      by rw [lookupS_setKeyV_self], by rw [lookupS_setKeyV_self]⟩
  · simp only [h0, Option.isNone_some, Bool.false_eq_true, if_false]
    rcases v with s | n | b | _ | l | d
    · exact Or.inr ⟨Value.str s, by rw [h0], rfl⟩
    · exact Or.inr ⟨Value.int n, by rw [h0], rfl⟩
    · exact Or.inr ⟨Value.bool b, by rw [h0], rfl⟩
    · exact Or.inr ⟨Value.null, by rw [h0], rfl⟩
    · exact Or.inr ⟨Value.list l, by rw [h0], rfl⟩
    · exact Or.inl ⟨setKeyV d "password" (Value.str p),
        lookupS_setKeyV_self data "database" (Value.dict (setKeyV d "password" (Value.str p))),
        lookupS_setKeyV_self d "password" (Value.str p)⟩

/-- A mapping section whose `password` entry is the string `p` validates,
when it validates at all, to a `DatabaseConfig` with password `p`. -/
theorem validateDatabase_password (d : Dict) (p : String) (db : DatabaseConfig)
    (hpw : lookupS d "password" = some (Value.str p))
    (h : validateDatabase (some (Value.dict d)) = some db) : db.password = p := by
  rw [validateDatabase] at h
  split at h
  · rename_i hst po u pw h1 h2 h3 h4
    cases h
    rw [fieldStr, hpw] at h4
    simp [coerceStr] at h4
    exact h4.symm
  · exact absurd h (by simp)

/-- C3, amended: whenever `DATABASE_PASSWORD` is set to a non-empty value,
every successfully constructed settings object carries exactly that value
in `database.password`, whatever the YAML layers or the caller supplied.
(The source tests the variable for truthiness, so the empty string does not
trigger the override — see the counterexample.) -/
theorem settings_password_env_wins (env : EnvL) (yfs : YFS) (data : Dict) (p : String)
    (hp : lookupS env "DATABASE_PASSWORD" = some p) (hne : p ≠ "") (s : Settings)
    (hs : settingsInit env yfs data = some s) : s.database.password = p := by
  rw [settingsInit] at hs
  rcases hcfg : load_merged_config yfs env with _ | yc
  · rw [hcfg] at hs
    exact absurd hs (by simp)
  · rw [hcfg] at hs
    simp only at hs
    have hdb := settingsValidate_database env _ s hs
    rcases applyEnvOverrides_database env
        (if yc.isEmpty then data else adoptSections yc data) p hp hne with
      ⟨d, hd, hpw⟩ | ⟨v, hv, hnd⟩
    · rw [hd] at hdb
      exact validateDatabase_password d p s.database hpw hdb
    · rw [hv] at hdb
      rcases v with s' | n | b | _ | l | d
      · exact absurd hdb (by simp [validateDatabase])
      · exact absurd hdb (by simp [validateDatabase])
      · exact absurd hdb (by simp [validateDatabase])
      · exact absurd hdb (by simp [validateDatabase])
      · exact absurd hdb (by simp [validateDatabase])
      · exact absurd hnd (by simp [asDict])

/-- Witness for C3: with `DATABASE_PASSWORD=s3cret` and no YAML layers the
construction succeeds and yields that password. -/
theorem settings_password_env_wins_witness :
    Option.map (fun s => s.database.password)
      (settingsInit [("DATABASE_PASSWORD", "s3cret")] [] []) = some "s3cret" := by
  have hs : settingsInit [("DATABASE_PASSWORD", "s3cret")] [] []
      = some ⟨"", "", ⟨"localhost", 3306, "root", "s3cret"⟩, ⟨"http://localhost:8080/api", 5000⟩,
          ⟨20, 1000, 3, "INFO"⟩, ⟨"INFO", true⟩⟩ := by
    simp [settingsInit, load_merged_config, load_yaml_file, truthy, lookupS,
      adoptSections, adoptSection, applyEnvOverrides, settingsValidate, fieldOrEnvStr,
      validateDatabase, validateApi, validateApp, validateLogging, fieldStr, fieldInt,
      fieldBool, coerceStr, coerceInt, coerceBool, deep_merge_cons, deep_merge, mergeVal,
      setKeyV]
  rw [hs]
  exact congrArg some
    (settings_password_env_wins [("DATABASE_PASSWORD", "s3cret")] [] [] "s3cret"
      rfl (by decide) _ hs)

/-- C3, counterexample: `DATABASE_PASSWORD` set but empty is "set", yet the
override is skipped — the YAML password survives, so the claim as stated
(for every construction in which the variable is set) fails. -/
theorem settings_password_empty_env_counterexample :
    Option.map (fun s => s.database.password)
      (settingsInit [("DATABASE_PASSWORD", ""), ("CONFIG_BASE_PATH", "c.yaml")]
        [("c.yaml", YFile.parsed (Value.dict
          [("database", Value.dict [("password", Value.str "yamlpw")])]))] [])
      = some "yamlpw"
    ∧ "yamlpw" ≠ "" := by
  constructor
  · simp [settingsInit, load_merged_config, load_yaml_file, truthy, lookupS,
      adoptSections, adoptSection, applyEnvOverrides, settingsValidate, fieldOrEnvStr,
      validateDatabase, validateApi, validateApp, validateLogging, fieldStr, fieldInt,
      fieldBool, coerceStr, coerceInt, coerceBool, deep_merge_cons, deep_merge, mergeVal,
      setKeyV]
  · decide

/-- Removal of every binding of a variable from the environment. -/
def removeKeyE : EnvL → String → EnvL
  | [], _ => []
  | (k', v) :: rest, k =>
      if k' = k then removeKeyE rest k else (k', v) :: removeKeyE rest k

theorem lookupS_removeKeyE_self (env : EnvL) (k : String) :
    lookupS (removeKeyE env k) k = none := by
  induction env with
  | nil => rfl
  | cons hd tl ih =>
      obtain ⟨k', v⟩ := hd
      by_cases h : k' = k
      · simp [removeKeyE, h, ih]
      · simp [removeKeyE, h, lookupS, ih]

theorem lookupS_removeKeyE_ne (env : EnvL) (k key : String) (h : key ≠ k) :
    lookupS (removeKeyE env k) key = lookupS env key := by
  induction env with
  | nil => rfl
  | cons hd tl ih =>
      obtain ⟨k', v⟩ := hd
      by_cases h2 : k' = k
      · subst h2
        have h3 : ¬ k' = key := fun he => h (he ▸ rfl)
        simp [removeKeyE, lookupS, h3, ih]
      · by_cases h3 : k' = key
        · subst h3
          simp [removeKeyE, lookupS, h2, ih]
        · simp [removeKeyE, lookupS, h2, h3, ih]

/-- C9: when `DATABASE_PASSWORD` is present but bound to the empty string
the override is not applied — the construction behaves exactly as if the
variable were unset. -/
theorem settings_empty_password_ignored (env : EnvL) (yfs : YFS) (data : Dict)
    (hp : lookupS env "DATABASE_PASSWORD" = some "") :
    settingsInit env yfs data
      = settingsInit (removeKeyE env "DATABASE_PASSWORD") yfs data := by
  have h1 : lookupS (removeKeyE env "DATABASE_PASSWORD") "CONFIG_BASE_PATH"
      = lookupS env "CONFIG_BASE_PATH" :=
    lookupS_removeKeyE_ne env _ _ (by decide)
  have h2 : lookupS (removeKeyE env "DATABASE_PASSWORD") "CONFIG_ENV_PATH"
      = lookupS env "CONFIG_ENV_PATH" :=
    lookupS_removeKeyE_ne env _ _ (by decide)
  have h3 : lookupS (removeKeyE env "DATABASE_PASSWORD") "DATABASE_PASSWORD" = none :=
    lookupS_removeKeyE_self env _
  have happ : ∀ d, applyEnvOverrides env d
      = applyEnvOverrides (removeKeyE env "DATABASE_PASSWORD") d := by
    intro d
    rw [applyEnvOverrides, applyEnvOverrides, hp, h3]
    simp
  have hval : ∀ d, settingsValidate env d
      = settingsValidate (removeKeyE env "DATABASE_PASSWORD") d := by
    intro d
    simp only [settingsValidate, fieldOrEnvStr, h1, h2]
  simp only [settingsInit, load_merged_config, h1, h2, happ, hval]

/-- Witness for C9 at a concrete environment. -/
theorem settings_empty_password_ignored_witness :
    settingsInit [("DATABASE_PASSWORD", "")] [] []
      = settingsInit (removeKeyE [("DATABASE_PASSWORD", "")] "DATABASE_PASSWORD") [] [] :=
  settings_empty_password_ignored [("DATABASE_PASSWORD", "")] [] [] (by decide)

/-- C4: the reader returns an empty mapping for an empty or `None` path and
for a missing file, and never raises on a nonexistent path — but the source
has no mapping check on the parse result: a file whose contents parse to a
truthy non-mapping (here the YAML list `- 1`) is returned as-is, violating
the claim and the function's own `Dict[str, Any]` annotation. -/
theorem load_yaml_file_nonmapping_bug :
    load_yaml_file [("cfg.yaml", YFile.parsed (Value.list [Value.int 1]))] (some "")
      = Except.ok (Value.dict [])
    ∧ load_yaml_file [("cfg.yaml", YFile.parsed (Value.list [Value.int 1]))]
        (some "missing.yaml") = Except.ok (Value.dict [])
    ∧ load_yaml_file [("cfg.yaml", YFile.parsed (Value.list [Value.int 1]))] none
      = Except.ok (Value.dict [])
    ∧ load_yaml_file [("cfg.yaml", YFile.parsed (Value.list [Value.int 1]))]
        (some "cfg.yaml") = Except.ok (Value.list [Value.int 1])
    ∧ (Except.ok (Value.list [Value.int 1]) : Except Unit Value)
        ≠ Except.ok (Value.dict []) := by
  refine ⟨?_, ?_, rfl, ?_, ?_⟩
  · simp [load_yaml_file]
  · simp [load_yaml_file, lookupS]
  · simp [load_yaml_file, lookupS, truthy]
  · intro h
    injection h with h2
    exact Value.noConfusion h2

/-- One line of `.env` parsing in `load_dotenv` (lines 40–44): strip the
line, skip it when blank or starting with a comment marker or lacking an
equals sign, otherwise split on the first equals sign and strip both
sides. -/
def parseDotenvLine (line : String) : Option (String × String) :=
  let l := line.trim
  if l.isEmpty || l.startsWith "#" then none
  else
    match l.splitOn "=" with
    | k :: v :: rest => some (k.trim, (String.intercalate "=" (v :: rest)).trim)
    | _ => none

/-- `os.environ.setdefault`: only a not-yet-set variable is written; a new
binding goes to the end. -/
def setdefaultE (env : EnvL) (k v : String) : EnvL :=
  if (lookupS env k).isSome then env else env ++ [(k, v)]

/-- `load_dotenv` from `settings.py` (lines 35–44), on the lines of an
existing file: each parsed binding is applied via `setdefault`. -/
def load_dotenv : List String → EnvL → EnvL
  | [], env => env
  | line :: rest, env =>
      match parseDotenvLine line with
      | none => load_dotenv rest env
      | some (k, v) => load_dotenv rest (setdefaultE env k v)

/-- The value of the first line of the file that defines a given key. -/
def firstFileValue : List String → String → Option String
  | [], _ => none
  | line :: rest, k =>
      match parseDotenvLine line with
      | some (k', v) => if k' = k then some v else firstFileValue rest k
      | none => firstFileValue rest k

theorem lookupS_append_of_some {α : Type} (l1 l2 : List (String × α)) (key : String)
    (v : α) (h : lookupS l1 key = some v) : lookupS (l1 ++ l2) key = some v := by
  induction l1 with
  | nil => simp [lookupS] at h
  | cons hd tl ih =>
      obtain ⟨k, w⟩ := hd
      by_cases hk : k = key
      · rw [lookupS, if_pos hk] at h
        simp [lookupS, hk, h]
      · rw [lookupS, if_neg hk] at h
        simp [lookupS, hk, ih h]

theorem lookupS_append_of_none {α : Type} (l1 l2 : List (String × α)) (key : String)
    (h : lookupS l1 key = none) : lookupS (l1 ++ l2) key = lookupS l2 key := by
  induction l1 with
  | nil => simp
  | cons hd tl ih =>
      obtain ⟨k, w⟩ := hd
      by_cases hk : k = key
      · rw [lookupS, if_pos hk] at h
        simp at h
      · rw [lookupS, if_neg hk] at h
        simp [lookupS, hk, ih h]

theorem lookupS_setdefaultE_of_some (env : EnvL) (k w key v : String)
    (h : lookupS env key = some v) : lookupS (setdefaultE env k w) key = some v := by
  rw [setdefaultE]
  by_cases hs : (lookupS env k).isSome
  · rw [if_pos hs]
    exact h
  · rw [if_neg hs]
    exact lookupS_append_of_some env _ key v h

/-- The first-writer-wins fact: an already-set variable keeps its value
through the whole dotenv load. -/
theorem load_dotenv_preserved (lines : List String) (env : EnvL) (key v : String)
    (h : lookupS env key = some v) : lookupS (load_dotenv lines env) key = some v := by
  induction lines generalizing env with
  | nil => exact h
  | cons line rest ih =>
      rw [load_dotenv]
      rcases hp : parseDotenvLine line with _ | ⟨k, w⟩
      · exact ih env h
      · exact ih _ (lookupS_setdefaultE_of_some env k w key v h)

/-- A variable not previously set receives the first file binding. -/
theorem load_dotenv_absent (lines : List String) (env : EnvL) (key : String)
    (h : lookupS env key = none) :
    lookupS (load_dotenv lines env) key = firstFileValue lines key := by
  induction lines generalizing env with
  | nil => exact h
  | cons line rest ih =>
      rw [load_dotenv, firstFileValue]
      rcases hp : parseDotenvLine line with _ | ⟨k, w⟩
      · exact ih env h
      · dsimp only
        by_cases hk : k = key
        · subst hk
          rw [if_pos rfl]
          have hset : lookupS (setdefaultE env k w) k = some w := by
            rw [setdefaultE, if_neg (by simp [h]), lookupS_append_of_none env _ _ h]
            simp [lookupS]
          exact load_dotenv_preserved rest _ k w hset
        · rw [if_neg hk]
          have hset : lookupS (setdefaultE env k w) key = none := by
            rw [setdefaultE]
            by_cases hs : (lookupS env k).isSome
            · rw [if_pos hs]
              exact h
            · rw [if_neg hs, lookupS_append_of_none env _ _ h]
              simp [lookupS, hk]
          exact ih _ hset

/-- C5: after loading a dotenv file, every key keeps its prior environment
value when one was set (first-writer-wins) and otherwise receives the
trimmed value of the first line defining it; a line that is skipped by the
parser changes nothing, and every blank line, comment line (first
non-whitespace character a hash) and line whose stripped form contains no
equals sign (its split is a singleton) is skipped. -/
theorem load_dotenv_spec (lines : List String) (env : EnvL) (key : String) :
    (∀ v, lookupS env key = some v → lookupS (load_dotenv lines env) key = some v)
    ∧ (lookupS env key = none →
        lookupS (load_dotenv lines env) key = firstFileValue lines key)
    ∧ (∀ line rest e, parseDotenvLine line = none →
        load_dotenv (line :: rest) e = load_dotenv rest e)
    ∧ (∀ line, line.trim = "" → parseDotenvLine line = none)
    ∧ (∀ line, line.trim.startsWith "#" = true → parseDotenvLine line = none)
    ∧ (∀ line l0, line.trim.splitOn "=" = [l0] → parseDotenvLine line = none) := by
  refine ⟨fun v h => load_dotenv_preserved lines env key v h,
    fun h => load_dotenv_absent lines env key h, ?_, ?_, ?_, ?_⟩
  · intro line rest e hp
    rw [load_dotenv, hp]
  · intro line hl
    rw [parseDotenvLine]
    simp [hl, show "".isEmpty = true from rfl]
  · intro line hl
    rw [parseDotenvLine]
    simp [hl]
  · intro line l0 hl
    rw [parseDotenvLine]
    simp only [hl]
    exact ite_self none

/-- Witness for C5: the claim's own example — `FOO=bar` already in the
environment survives a dotenv file containing `FOO=baz`. -/
theorem load_dotenv_spec_witness :
    lookupS (load_dotenv ["FOO=baz"] [("FOO", "bar")]) "FOO" = some "bar" :=
  (load_dotenv_spec ["FOO=baz"] [("FOO", "bar")] "FOO").1 "bar" rfl

/-- A runtime value in the heap model of `deep_merge`: every Python dict is
a reference into the store (so `isinstance(x, dict)` holds exactly of
`ref` values), every other value is immediate — the merge never mutates
non-dict values, so their identity is irrelevant. -/
inductive HVal where
  | prim : Value → HVal
  | ref : Nat → HVal

/-- A dict object on the heap. -/
abbrev Obj := List (String × HVal)

/-- The heap: dict objects addressed by position; allocation appends. -/
abbrev Store := List Obj

/-- Reading a heap cell (out-of-range reads give the empty object). -/
def storeGet : Store → Nat → Obj
  | [], _ => []
  | ob :: _, 0 => ob
  | _ :: rest, n + 1 => storeGet rest n

/-- Writing a heap cell (out-of-range writes are dropped). -/
def storeSet : Store → Nat → Obj → Store
  | [], _, _ => []
  | _ :: rest, 0, ob => ob :: rest
  | x :: rest, n + 1, ob => x :: storeSet rest n ob

/-- The guard `key in result and isinstance(result[key], dict) and
isinstance(value, dict)` of the merge loop: the two dict addresses when it
holds. -/
def refPair : Option HVal → HVal → Option (Nat × Nat)
  | some (HVal.ref a1), HVal.ref a2 => some (a1, a2)
  | _, _ => none

mutual

/-- Heap-level `deep_merge` with explicit fuel (the Python recursion
terminates because config data is tree shaped; fuel exhaustion gives
`none`): `result = base.copy()` allocates a fresh cell holding the base
object's entries, then the override's items are folded into that cell. -/
def deepMergeH : Nat → Store → Nat → Nat → Option (Store × Nat)
  | 0, _, _, _ => none
  | fuel + 1, σ, b, o =>
      mergeItems fuel (storeGet σ o) (σ ++ [storeGet σ b]) σ.length
termination_by fuel _ _ _ => (fuel, 0)

/-- The `for key, value in override.items()` loop of the heap merge; `r` is
the address of the result object, the only cell ever written. -/
def mergeItems : Nat → Obj → Store → Nat → Option (Store × Nat)
  | _, [], σ, r => some (σ, r)
  | fuel, (k, v) :: rest, σ, r =>
      match refPair (lookupS (storeGet σ r) k) v with
      | some (a1, a2) =>
          match deepMergeH fuel σ a1 a2 with
          | none => none
          | some (σ2, m) =>
              mergeItems fuel rest
                (storeSet σ2 r (setKeyV (storeGet σ2 r) k (HVal.ref m))) r
      | none => mergeItems fuel rest (storeSet σ r (setKeyV (storeGet σ r) k v)) r
termination_by fuel items _ _ => (fuel, items.length + 1)

end

theorem storeGet_append_lt (σ : Store) (l : Store) (a : Nat) (ha : a < σ.length) :
    storeGet (σ ++ l) a = storeGet σ a := by
  induction σ generalizing a with
  | nil => exact absurd ha (by simp)
  | cons ob rest ih =>
      cases a with
      | zero => rfl
      | succ n => exact ih n (by simpa using ha)

theorem storeGet_set_ne (σ : Store) (r a : Nat) (ob : Obj) (ha : a ≠ r) :
    storeGet (storeSet σ r ob) a = storeGet σ a := by
  induction σ generalizing r a with
  | nil => rfl
  | cons x rest ih =>
      cases r with
      | zero =>
          cases a with
          | zero => exact absurd rfl ha
          | succ n => rfl
      | succ m =>
          cases a with
          | zero => rfl
          | succ n => exact ih m n (fun he => ha (by rw [he]))

theorem storeSet_length (σ : Store) (r : Nat) (ob : Obj) :
    (storeSet σ r ob).length = σ.length := by
  induction σ generalizing r with
  | nil => rfl
  | cons x rest ih =>
      cases r with
      | zero => rfl
      | succ m =>
          rw [storeSet]
          simpa using ih m

/-- Frame property of the heap merge, proved for both mutually recursive
functions at once: a successful merge only grows the store and only writes
to cells allocated during the call. -/
theorem deepMergeH_mergeItems_frame (fuel : Nat) :
    (∀ σ b o σ2 r2, deepMergeH fuel σ b o = some (σ2, r2) →
      σ.length ≤ σ2.length ∧ σ.length ≤ r2
        ∧ ∀ a, a < σ.length → storeGet σ2 a = storeGet σ a)
    ∧ (∀ items σ r n σ2 r2, mergeItems fuel items σ r = some (σ2, r2) →
        n ≤ σ.length → n ≤ r →
        σ.length ≤ σ2.length ∧ r2 = r
          ∧ ∀ a, a < n → storeGet σ2 a = storeGet σ a) := by
  induction fuel with
  | zero =>
      constructor
      · intro σ b o σ2 r2 h
        rw [deepMergeH] at h
        exact absurd h (by simp)
      · intro items
        induction items with
        | nil =>
            intro σ r n σ2 r2 h hn hr
            rw [mergeItems] at h
            cases h
            exact ⟨le_refl _, rfl, fun a _ => rfl⟩
        | cons hd rest ih =>
            intro σ r n σ2 r2 h hn hr
            obtain ⟨k, v⟩ := hd
            rw [mergeItems] at h
            rcases hact : refPair (lookupS (storeGet σ r) k) v with _ | ⟨a1, a2⟩
            · rw [hact] at h
              have hlen := storeSet_length σ r (setKeyV (storeGet σ r) k v)
              obtain ⟨h1, h2, h3⟩ := ih _ _ n _ _ h (by rw [hlen]; exact hn) hr
              refine ⟨by rw [hlen] at h1; exact h1, h2, fun a ha => ?_⟩
              rw [h3 a ha, storeGet_set_ne σ r a _ (by omega)]
            · simp only [hact] at h
              rw [deepMergeH] at h
              simp at h
  | succ f ihf =>
      have hP : ∀ σ b o σ2 r2, deepMergeH (f + 1) σ b o = some (σ2, r2) →
          σ.length ≤ σ2.length ∧ σ.length ≤ r2
            ∧ ∀ a, a < σ.length → storeGet σ2 a = storeGet σ a := by
        intro σ b o σ2 r2 h
        rw [deepMergeH] at h
        obtain ⟨h1, h2, h3⟩ := ihf.2 (storeGet σ o) (σ ++ [storeGet σ b]) σ.length
          σ.length σ2 r2 h (by simp) (le_refl _)
        refine ⟨le_trans (by simp) h1, by rw [h2], fun a ha => ?_⟩
        rw [h3 a ha, storeGet_append_lt σ _ a ha]
      refine ⟨hP, ?_⟩
      intro items
      induction items with
      | nil =>
          intro σ r n σ2 r2 h hn hr
          rw [mergeItems] at h
          cases h
          exact ⟨le_refl _, rfl, fun a _ => rfl⟩
      | cons hd rest ih =>
          intro σ r n σ2 r2 h hn hr
          obtain ⟨k, v⟩ := hd
          rw [mergeItems] at h
          rcases hact : refPair (lookupS (storeGet σ r) k) v with _ | ⟨a1, a2⟩
          · rw [hact] at h
            have hlen := storeSet_length σ r (setKeyV (storeGet σ r) k v)
            obtain ⟨h1, h2, h3⟩ := ih _ _ n _ _ h (by rw [hlen]; exact hn) hr
            refine ⟨by rw [hlen] at h1; exact h1, h2, fun a ha => ?_⟩
            rw [h3 a ha, storeGet_set_ne σ r a _ (by omega)]
          · simp only [hact] at h
            rcases hrec : deepMergeH (f + 1) σ a1 a2 with _ | ⟨σm, m⟩
            · rw [hrec] at h
              exact Option.noConfusion h
            · simp only [hrec] at h
              obtain ⟨g1, g2, g3⟩ := hP σ a1 a2 σm m hrec
              have hlen := storeSet_length σm r (setKeyV (storeGet σm r) k (HVal.ref m))
              obtain ⟨h1, h2, h3⟩ := ih _ _ n _ _ h (by rw [hlen]; omega) hr
              refine ⟨by rw [hlen] at h1; omega, h2, fun a ha => ?_⟩
              rw [h3 a ha, storeGet_set_ne σm r a _ (by omega), g3 a (by omega)]

/-- C6: the heap-level merge never rewrites a pre-existing store cell —
every address valid before the call holds the identical dict object
afterwards, so neither input mapping (nor any dict reachable from either)
gains, loses, or rebinds a key: callers can reuse `base` afterwards. -/
theorem deep_merge_no_mutation (fuel : Nat) (σ σ2 : Store) (b o r a : Nat)
    (h : deepMergeH fuel σ b o = some (σ2, r)) (ha : a < σ.length) :
    storeGet σ2 a = storeGet σ a :=
  ((deepMergeH_mergeItems_frame fuel).1 σ b o σ2 r h).2.2 a ha

/-- Witness for C6: a two-cell store (a dict referencing another dict)
merged with itself; cell 0 is unchanged by the call. -/
theorem deep_merge_no_mutation_witness :
    storeGet [[("a", HVal.ref 1)], [("x", HVal.prim (Value.int 1))],
        [("a", HVal.ref 3)], [("x", HVal.prim (Value.int 1))]] 0
      = storeGet [[("a", HVal.ref 1)], [("x", HVal.prim (Value.int 1))]] 0 := by
  have h : deepMergeH 2 [[("a", HVal.ref 1)], [("x", HVal.prim (Value.int 1))]] 0 0
      = some ([[("a", HVal.ref 1)], [("x", HVal.prim (Value.int 1))],
          [("a", HVal.ref 3)], [("x", HVal.prim (Value.int 1))]], 2) := by
    simp [deepMergeH, mergeItems, storeGet, storeSet, refPair, lookupS, setKeyV]
  exact deep_merge_no_mutation 2 _ _ 0 0 2 0 h (by simp)

/-- A filesystem path, as components relative to an abstract root (the
model's counterpart of `Path(...).resolve()`). -/
abbrev SPath := List String

/-- The scaffolder's filesystem: entries are directories (`none`) or files
with content (`some`); lookup is first-match. -/
abbrev FS := List (SPath × Option String)

/-- Lookup of a path's entry: `Path.exists` is `isSome` of this. -/
def lookupP : FS → SPath → Option (Option String)
  | [], _ => none
  | (q, c) :: rest, p => if q = p then some c else lookupP rest p

/-- Overwrite-or-create of a file: `Path.write_text`. -/
def writeText : FS → SPath → String → FS
  | [], p, c => [(p, some c)]
  | (q, w) :: rest, p, c =>
      if q = p then (q, some c) :: rest else (q, w) :: writeText rest p c

/-- All nonempty prefixes of a path, shortest first. -/
def pathPrefixes (p : SPath) : List SPath :=
  (List.range p.length).map (fun i => p.take (i + 1))

/-- `Path.mkdir(parents=True, exist_ok=True)`: create each missing
ancestor, then the directory itself. -/
def mkdirP (fs : FS) (p : SPath) : FS :=
  (pathPrefixes p).foldl
    (fun f q => if (lookupP f q).isSome then f else f ++ [(q, none)]) fs

/-- A character allowed by the name pattern `[a-z0-9-]`. -/
def validNameChar (c : Char) : Bool :=
  (Char.ofNat 97 ≤ c && c ≤ Char.ofNat 122) || c.isDigit || c == Char.ofNat 45

/-- Continuation of the `re.match` search after at least one allowed
character: keep consuming allowed characters; at the first other character
the anchor can only succeed when that character is a single final newline
(in Python, `$` also matches just before a newline that ends the string).
No other backtracking path exists, since a newline is not in the class. -/
def nameScan : List Char → Bool
  | [] => true
  | c :: rest =>
      if validNameChar c then nameScan rest
      else c == Char.ofNat 10 && rest.isEmpty

/-- Python `re.match(r'^[a-z0-9-]+$', name) is not None`: one or more
allowed characters spanning the whole string, except that one trailing
newline may follow them. -/
def nameMatches (name : String) : Bool :=
  match name.toList with
  | [] => false
  | c :: rest => validNameChar c && nameScan rest

/-- `validate_name` from `generate_skill.py` (lines 25–37): nonempty, at
most 64 characters, and matching `^[a-z0-9-]+$` under Python semantics
(which admit one trailing newline). -/
def validate_name (name : String) : Bool × String :=
  if name = "" then (false, "Name must not be empty")
  else if name.length > 64 then (false, "Name exceeds the length limit")
  else if !(nameMatches name) then
    (false, "Name may only hold lowercase letters, digits and hyphens")
  else (true, "OK")

/-- The search for `<[^>]+>`: some later angle-open is followed by at least
one non-close character and then a close character. -/
def hasXmlTag : List Char → Bool
  | [] => false
  | c :: rest =>
      (c == Char.ofNat 60 &&
        (match rest with
         | [] => false
         | c2 :: r2 => c2 != Char.ofNat 62 && (c2 :: r2).contains (Char.ofNat 62)))
      || hasXmlTag rest

/-- `validate_description` from `generate_skill.py` (lines 40–52):
nonempty, at most 1024 characters, no XML-tag-like substring. -/
def validate_description (description : String) : Bool × String :=
  if description = "" then (false, "Description must not be empty")
  else if description.length > 1024 then (false, "Description exceeds the length limit")
  else if hasXmlTag description.toList then (false, "Description must not hold XML tags")
  else (true, "OK")

/-- Python `str.title` composed with the hyphen-to-space replacement used
by the SKILL.md heading (names are validated lowercase beforehand). -/
def titleCase (s : String) : String :=
  String.intercalate " " (((s.replace "-" " ").splitOn " ").map (fun w => w.capitalize))

/-- The SKILL.md template of `generate_skill_md` (lines 59–103); the
interpolation points are the source's, the fixed prose between them is
abbreviated (no claim depends on the literal text). -/
def generate_skill_md (name description : String) : String :=
  "---\nname: " ++ name ++ "\ndescription: " ++ description
    ++ "\nversion: 1.0.0\n---\n\n# " ++ titleCase name ++ "\n\n" ++ description
    ++ "\n\n## Instructions\n\n## Configuration\n\n## Examples\n\n## Error Handling\n\n## References\n"

/-- The examples/README.md template of `generate_readme` (lines 106–121),
abbreviated the same way. -/
def generate_readme (name _description : String) : String :=
  "# " ++ name ++ " Examples\n\nExamples for the `" ++ name ++ "` skill.\n"

/-- `create_skill_scaffold` (lines 128–156): refuse an existing target
directory before any mutation, otherwise create the three directories and
the three files. -/
def create_skill_scaffold (fs : FS) (name description : String) (output : SPath) :
    Option (FS × SPath) :=
  let skill_dir := output ++ [name]
  if (lookupP fs skill_dir).isSome then none
  else
    let fs1 := mkdirP fs skill_dir
    let fs2 := mkdirP fs1 (skill_dir ++ ["scripts"])
    let fs3 := mkdirP fs2 (skill_dir ++ ["examples"])
    let fs4 := writeText fs3 (skill_dir ++ ["SKILL.md"]) (generate_skill_md name description)
    let fs5 := writeText fs4 (skill_dir ++ ["examples", "README.md"])
      (generate_readme name description)
    let fs6 := writeText fs5 (skill_dir ++ ["scripts", ".gitkeep"]) "# add helper scripts here\n"
    some (fs6, skill_dir)

/-- `main` (lines 159–232): validate the name, then the description, each
failure exiting 1 before touching the filesystem; create the output
directory when missing; scaffold, an existing target reporting exit 1. -/
def mainModel (fs : FS) (name description : String) (output : SPath) : Nat × FS :=
  if !(validate_name name).1 then (1, fs)
  else if !(validate_description description).1 then (1, fs)
  else
    let fs1 := if (lookupP fs output).isSome then fs else mkdirP fs output
    match create_skill_scaffold fs1 name description output with
    | none => (1, fs1)
    | some (fs2, _) => (0, fs2)

theorem lookupP_append_single_ne (fs : FS) (q p : SPath) (c : Option String)
    (h : q ≠ p) : lookupP (fs ++ [(q, c)]) p = lookupP fs p := by
  induction fs with
  | nil => simp [lookupP, h]
  | cons hd rest ih =>
      obtain ⟨q', c'⟩ := hd
      by_cases h2 : q' = p
      · simp [lookupP, h2]
      · simp [lookupP, h2, ih]

theorem lookupP_foldl_dirs (qs : List SPath) (fs : FS) (p : SPath)
    (hq : ∀ q, q ∈ qs → q.length < p.length) :
    lookupP (qs.foldl
        (fun f q => if (lookupP f q).isSome then f else f ++ [(q, none)]) fs) p
      = lookupP fs p := by
  induction qs generalizing fs with
  | nil => rfl
  | cons q rest ih =>
      rw [List.foldl_cons]
      have hstep : lookupP (if (lookupP fs q).isSome then fs else fs ++ [(q, none)]) p
          = lookupP fs p := by
        by_cases hQ : (lookupP fs q).isSome
        · rw [if_pos hQ]
        · rw [if_neg hQ]
          refine lookupP_append_single_ne fs q p none (fun he => ?_)
          have := hq q (by simp)
          rw [he] at this
          exact absurd this (lt_irrefl _)
      rw [ih _ (fun q2 hq2 => hq q2 (by simp [hq2])), hstep]

theorem lookupP_mkdirP_longer (fs : FS) (out p : SPath)
    (hlen : out.length < p.length) :
    lookupP (mkdirP fs out) p = lookupP fs p := by
  refine lookupP_foldl_dirs (pathPrefixes out) fs p (fun q hq => ?_)
  rw [pathPrefixes] at hq
  obtain ⟨i, hi, hq2⟩ := List.mem_map.mp hq
  rw [← hq2]
  have : (out.take (i + 1)).length ≤ out.length := by
    rw [List.length_take]
    omega
  omega

theorem isPrefixOf_len_le {α : Type} [BEq α] :
    ∀ (l1 l2 : List α), List.isPrefixOf l1 l2 = true → l1.length ≤ l2.length
  | [], _, _ => Nat.zero_le _
  | a :: l1, [], h => by simp [List.isPrefixOf] at h
  | a :: l1, b :: l2, h => by
      rw [List.isPrefixOf, Bool.and_eq_true] at h
      simpa using isPrefixOf_len_le l1 l2 h.2

/-- C8: whenever name or description validation fails or the target
directory `output/name` already exists, the run exits with status 1, every
path at or below the target directory is untouched, and a validation
failure leaves the whole filesystem unchanged (it is reported before any
mutation). -/
theorem scaffolder_failure_no_mutation (fs : FS) (name description : String)
    (output p : SPath)
    (h : (validate_name name).1 = false ∨ (validate_description description).1 = false
      ∨ (lookupP fs (output ++ [name])).isSome = true)
    (hp : List.isPrefixOf (output ++ [name]) p = true) :
    (mainModel fs name description output).1 = 1
    ∧ lookupP (mainModel fs name description output).2 p = lookupP fs p
    ∧ (((validate_name name).1 = false ∨ (validate_description description).1 = false) →
        (mainModel fs name description output).2 = fs) := by
  rcases hn : (validate_name name).1 with _ | _
  · have heq : mainModel fs name description output = (1, fs) := by
      rw [mainModel, hn]
      rfl
    rw [heq]
    exact ⟨rfl, rfl, fun _ => rfl⟩
  · rcases hd : (validate_description description).1 with _ | _
    · have heq : mainModel fs name description output = (1, fs) := by
        rw [mainModel, hn, hd]
        rfl
      rw [heq]
      exact ⟨rfl, rfl, fun _ => rfl⟩
    · have hcol : (lookupP fs (output ++ [name])).isSome = true := by
        rcases h with h1 | h1 | h1
        · rw [hn] at h1
          exact absurd h1 (by simp)
        · rw [hd] at h1
          exact absurd h1 (by simp)
        · exact h1
      have hlenp : output.length < p.length := by
        have h1 := isPrefixOf_len_le _ _ hp
        rw [List.length_append] at h1
        simp at h1
        omega
      have hfs1 : ∀ p2, output.length < p2.length →
          lookupP (if (lookupP fs output).isSome then fs else mkdirP fs output) p2
            = lookupP fs p2 := by
        intro p2 h2
        by_cases hout : (lookupP fs output).isSome
        · rw [if_pos hout]
        · rw [if_neg hout]
          exact lookupP_mkdirP_longer fs output p2 h2
      have hskill : lookupP (if (lookupP fs output).isSome then fs else mkdirP fs output)
          (output ++ [name]) = lookupP fs (output ++ [name]) :=
        hfs1 (output ++ [name]) (by simp)
      have heq : mainModel fs name description output
          = (1, if (lookupP fs output).isSome then fs else mkdirP fs output) := by
        rw [mainModel, hn, hd]
        simp only [Bool.not_true, if_false, Bool.false_eq_true]
        rw [create_skill_scaffold]
        simp only [hskill, hcol, if_true]
      rw [heq]
      refine ⟨rfl, hfs1 p hlenp, fun hbad => ?_⟩
      rcases hbad with hbad | hbad
      · exact absurd hbad (by simp)
      · exact absurd hbad (by simp)

/-- Witness for C8: an invalid name (`My_Skill` holds uppercase letters and
an underscore) exits 1 and leaves a one-entry filesystem unchanged. -/
theorem scaffolder_failure_no_mutation_witness :
    (mainModel [(["out"], none)] "My_Skill" "a description" ["out"]).1 = 1
    ∧ lookupP (mainModel [(["out"], none)] "My_Skill" "a description" ["out"]).2
        ["out", "My_Skill"]
      = lookupP [(["out"], none)] ["out", "My_Skill"]
    ∧ (mainModel [(["out"], none)] "My_Skill" "a description" ["out"]).2
      = [(["out"], none)] := by
  have h := scaffolder_failure_no_mutation [(["out"], none)] "My_Skill" "a description"
    ["out"] ["out", "My_Skill"] (Or.inl (by decide)) (by decide)
  exact ⟨h.1, h.2.1, h.2.2 (Or.inl (by decide))⟩

/-- C10: the empty string fails both validations, and an invocation with an
empty name, or an empty description, exits 1 with the filesystem exactly as
it was — no directory is created. -/
theorem scaffolder_empty_inputs :
    (validate_name "").1 = false
    ∧ (validate_description "").1 = false
    ∧ (∀ fs description output, mainModel fs "" description output = (1, fs))
    ∧ (∀ fs name output, mainModel fs name "" output = (1, fs)) := by
  refine ⟨rfl, rfl, fun fs description output => by rw [mainModel]; rfl,
    fun fs name output => ?_⟩
  rcases hn : (validate_name name).1 with _ | _
  · rw [mainModel, hn]
    rfl
  · rw [mainModel, hn]
    rfl
